import Mathlib

/-!
Verification of the batch video converter and its compatibility checker.

The development shallowly embeds the two Python source files:
  src/powerpoint_video_compatibility_fixer.py  (discovery, geometry policy,
    conversion unit, batch orchestrator, argument validation, entry point)
  tests/test_powerpoint_compatibility.py  (compliance verifier)

External collaborators (moviepy clip handling, the ffmpeg encoder, ffprobe)
are modelled as oracles describing each possible outcome of one invocation;
the filesystem is an explicit state threaded through the functions.
-/

namespace PPTFix

/-! ## Paths

A model of the pieces of pathlib.PurePath the source uses: a path is a list
of parent components plus a final name.  The accessors stem, suffix and
with_suffix follow the CPython implementation: the suffix is the portion of
the name from its last dot, provided that dot is neither the first nor the
last character of the name.
-/

structure PyPath where
  dir : List String
  name : String
deriving DecidableEq

def PyPath.parts (p : PyPath) : List String := p.dir ++ [p.name]

/-- The path p / n (appending one component), as in pathlib. -/
def PyPath.child (p : PyPath) (n : String) : PyPath := ⟨p.parts, n⟩

/-- Index of the last dot of a character list, as in str.rfind applied to a dot. -/
def rfindDot : List Char → Option Nat
  | [] => none
  | c :: rest =>
    match rfindDot rest with
    | some i => some (i + 1)
    | none => if c = '.' then some 0 else none

/-- The pair (stem, suffix) of a file name, following PurePath.stem and
PurePath.suffix: split at the last dot when its index i satisfies
0 < i < length - 1, otherwise the suffix is empty. -/
def pySplitName (name : String) : String × String :=
  let cs := name.data
  match rfindDot cs with
  | some i =>
    if 0 < i ∧ i < cs.length - 1 then (⟨cs.take i⟩, ⟨cs.drop i⟩) else (name, "")
  | none => (name, "")

def strStem (name : String) : String := (pySplitName name).1

def strSuffix (name : String) : String := (pySplitName name).2

def PyPath.stem (p : PyPath) : String := strStem p.name

def PyPath.suffix (p : PyPath) : String := strSuffix p.name

/-- PurePath.with_suffix: replace the suffix of the name, or append the new
suffix when the name has none. -/
def PyPath.withSuffix (p : PyPath) (s : String) : PyPath :=
  if p.suffix = "" then ⟨p.dir, p.name ++ s⟩ else ⟨p.dir, p.stem ++ s⟩

/-- The path whose components are the given nonempty list. -/
def partsToPath (l : List String) : PyPath := ⟨l.dropLast, l.getLastD ""⟩

/-- The chain of directories os.makedirs-style creation of p touches:
every nonempty prefix of the components of p, ending with p itself. -/
def PyPath.ancestors (p : PyPath) : List PyPath :=
  (List.range (p.dir.length + 1)).map (fun k => partsToPath (p.parts.take (k + 1)))

/-! ### Facts about the name split -/

theorem rfindDot_getElem {cs : List Char} {i : Nat} (h : rfindDot cs = some i) :
    cs[i]? = some '.' := by
  induction cs generalizing i with
  | nil => simp [rfindDot] at h
  | cons c rest ih =>
    simp only [rfindDot] at h
    cases hr : rfindDot rest with
    | some j =>
      rw [hr] at h
      cases h
      simpa using ih hr
    | none =>
      rw [hr] at h
      by_cases hc : c = '.'
      · simp [hc] at h
        cases h
        simp [hc]
      · simp [hc] at h

theorem bool_false_of_not {b : Bool} (h : ¬ b = true) : b = false := by
  cases b
  · rfl
  · exact absurd rfl h

theorem str_append_empty (s : String) : s ++ "" = s := by
  cases s with
  | mk d =>
    show String.mk (d ++ []) = String.mk d
    simp

theorem strStem_append_strSuffix (n : String) : strStem n ++ strSuffix n = n := by
  unfold strStem strSuffix pySplitName
  cases hr : rfindDot n.data with
  | none =>
    simp only [hr]
    exact str_append_empty n
  | some i =>
    by_cases hi : 0 < i ∧ i < n.data.length - 1
    · simp only [hr, hi, if_true]
      show String.mk (n.data.take i ++ n.data.drop i) = n
      rw [List.take_append_drop]
    · simp only [hr, hi, if_false]
      exact str_append_empty n

theorem strSuffix_empty_or_head_dot (n : String) :
    strSuffix n = "" ∨ (strSuffix n).data.head? = some '.' := by
  unfold strSuffix pySplitName
  cases hr : rfindDot n.data with
  | none => left; simp only [hr]
  | some i =>
    by_cases hi : 0 < i ∧ i < n.data.length - 1
    · right
      simp only [hr, hi, if_true]
      show (n.data.drop i).head? = some '.'
      rw [List.head?_drop]
      exact rfindDot_getElem hr
    · left
      simp only [hr, hi, if_false]

theorem strSuffix_empty_stem (n : String) (h : strSuffix n = "") : strStem n = n := by
  have := strStem_append_strSuffix n
  rwa [h, String.append_empty] at this

/-! ## Lexicographic path order

Python sorted() arranges Path values lexicographically by their components,
each component compared by Unicode code point.  chListLt is strict
code-point order on character lists, strLtB lifts it to strings, and
partsLeB is the non-strict lexicographic order on component lists.
-/

def chListLt : List Char → List Char → Bool
  | [], [] => false
  | [], _ :: _ => true
  | _ :: _, [] => false
  | a :: as, b :: bs =>
    if a.toNat < b.toNat then true
    else if b.toNat < a.toNat then false
    else chListLt as bs

def strLtB (a b : String) : Bool := chListLt a.data b.data

def partsLeB : List String → List String → Bool
  | [], _ => true
  | _ :: _, [] => false
  | a :: as, b :: bs =>
    if strLtB a b then true
    else if strLtB b a then false
    else partsLeB as bs

/-- The ordering Python sorted() uses on paths. -/
def pathLe (p q : PyPath) : Prop := partsLeB p.parts q.parts = true

instance : DecidableRel pathLe := fun _ _ => by
  unfold pathLe; infer_instance

theorem chListLt_eq_of_not {l1 l2 : List Char}
    (h1 : chListLt l1 l2 = false) (h2 : chListLt l2 l1 = false) : l1 = l2 := by
  induction l1 generalizing l2 with
  | nil => cases l2 with
    | nil => rfl
    | cons b bs => simp [chListLt] at h1
  | cons a as ih =>
    cases l2 with
    | nil => simp [chListLt] at h2
    | cons b bs =>
      simp only [chListLt] at h1 h2
      by_cases hab : a.toNat < b.toNat
      · simp [hab] at h1
      · by_cases hba : b.toNat < a.toNat
        · simp [hab, hba] at h1 h2
        · simp only [hab, hba, if_false] at h1 h2
          have hn : a.toNat = b.toNat :=
            Nat.le_antisymm (Nat.not_lt.mp hba) (Nat.not_lt.mp hab)
          have hab2 : a = b := by
            apply Char.ext
            apply UInt32.ext
            exact hn
          rw [hab2, ih h1 h2]

theorem chListLt_trans {l1 l2 l3 : List Char}
    (h1 : chListLt l1 l2 = true) (h2 : chListLt l2 l3 = true) : chListLt l1 l3 = true := by
  induction l1 generalizing l2 l3 with
  | nil =>
    cases l2 with
    | nil => simp [chListLt] at h1
    | cons b bs =>
      cases l3 with
      | nil => simp [chListLt] at h2
      | cons c cs => simp [chListLt]
  | cons a as ih =>
    cases l2 with
    | nil => simp [chListLt] at h1
    | cons b bs =>
      cases l3 with
      | nil => simp [chListLt] at h2
      | cons c cs =>
        simp only [chListLt] at h1 h2 ⊢
        by_cases hab : a.toNat < b.toNat
        · by_cases hbc : b.toNat < c.toNat
          · simp [Nat.lt_trans hab hbc]
          · by_cases hcb : c.toNat < b.toNat
            · simp [hbc, hcb] at h2
            · have : b.toNat = c.toNat :=
                Nat.le_antisymm (Nat.not_lt.mp hcb) (Nat.not_lt.mp hbc)
              simp [this ▸ hab]
        · by_cases hba : b.toNat < a.toNat
          · simp [hab, hba] at h1
          · have heq : a.toNat = b.toNat :=
              Nat.le_antisymm (Nat.not_lt.mp hba) (Nat.not_lt.mp hab)
            simp only [hab, hba, if_false] at h1
            by_cases hbc : b.toNat < c.toNat
            · simp [heq ▸ hbc]
            · by_cases hcb : c.toNat < b.toNat
              · simp [hbc, hcb] at h2
              · simp only [hbc, hcb, if_false] at h2
                have hac : ¬ a.toNat < c.toNat := heq ▸ hbc
                have hca : ¬ c.toNat < a.toNat := heq ▸ hcb
                simp [hac, hca, ih h1 h2]

theorem chListLt_irrefl (l : List Char) : chListLt l l = false := by
  induction l with
  | nil => rfl
  | cons a as ih => simp [chListLt, ih]

theorem chListLt_asymm {l1 l2 : List Char}
    (h : chListLt l1 l2 = true) : chListLt l2 l1 = false := by
  by_contra hc
  have h2 : chListLt l2 l1 = true := by
    cases hx : chListLt l2 l1 with
    | false => exact absurd hx hc
    | true => rfl
  have := chListLt_trans h h2
  rw [chListLt_irrefl] at this
  cases this

theorem strLtB_eq_of_not {a b : String}
    (h1 : strLtB a b = false) (h2 : strLtB b a = false) : a = b := by
  have h3 : a.data = b.data := chListLt_eq_of_not h1 h2
  cases a
  cases b
  exact congrArg String.mk h3

theorem strLtB_trans {a b c : String}
    (h1 : strLtB a b = true) (h2 : strLtB b c = true) : strLtB a c = true :=
  chListLt_trans h1 h2

theorem strLtB_asymm {a b : String} (h : strLtB a b = true) : strLtB b a = false :=
  chListLt_asymm h

theorem partsLeB_total (l1 l2 : List String) :
    partsLeB l1 l2 = true ∨ partsLeB l2 l1 = true := by
  induction l1 generalizing l2 with
  | nil => left; rfl
  | cons a as ih =>
    cases l2 with
    | nil => right; rfl
    | cons b bs =>
      simp only [partsLeB]
      by_cases hab : strLtB a b = true
      · left; simp [hab]
      · by_cases hba : strLtB b a = true
        · right; simp [hba]
        · have hab0 := bool_false_of_not hab
          have hba0 := bool_false_of_not hba
          rcases ih bs with h | h
          · left; simp [hab0, hba0, h]
          · right; simp [hab0, hba0, h]

theorem partsLeB_trans {l1 l2 l3 : List String}
    (h1 : partsLeB l1 l2 = true) (h2 : partsLeB l2 l3 = true) :
    partsLeB l1 l3 = true := by
  induction l1 generalizing l2 l3 with
  | nil => rfl
  | cons a as ih =>
    cases l2 with
    | nil => simp [partsLeB] at h1
    | cons b bs =>
      cases l3 with
      | nil => simp [partsLeB] at h2
      | cons c cs =>
        simp only [partsLeB] at h1 h2 ⊢
        by_cases hab : strLtB a b = true
        · by_cases hbc : strLtB b c = true
          · simp [strLtB_trans hab hbc]
          · by_cases hcb : strLtB c b = true
            · simp [hbc, hcb] at h2
            · have heq : b = c :=
                strLtB_eq_of_not (bool_false_of_not hbc) (bool_false_of_not hcb)
              simp [heq ▸ hab]
        · by_cases hba : strLtB b a = true
          · have := strLtB_asymm hba
            simp [bool_false_of_not hab, hba, this] at h1
          · have hab0 := bool_false_of_not hab
            have hba0 := bool_false_of_not hba
            have heq : a = b := strLtB_eq_of_not hab0 hba0
            simp only [hab0, hba0, if_false, Bool.false_eq_true] at h1
            subst heq
            by_cases hac : strLtB a c = true
            · simp [hac]
            · by_cases hca : strLtB c a = true
              · simp [bool_false_of_not hac, hca] at h2
              · have hac0 := bool_false_of_not hac
                have hca0 := bool_false_of_not hca
                simp only [hac0, hca0, if_false, Bool.false_eq_true] at h2
                simp [hac0, hca0, ih h1 h2]

theorem partsLeB_antisymm {l1 l2 : List String}
    (h1 : partsLeB l1 l2 = true) (h2 : partsLeB l2 l1 = true) : l1 = l2 := by
  induction l1 generalizing l2 with
  | nil =>
    cases l2 with
    | nil => rfl
    | cons b bs => simp [partsLeB] at h2
  | cons a as ih =>
    cases l2 with
    | nil => simp [partsLeB] at h1
    | cons b bs =>
      simp only [partsLeB] at h1 h2
      by_cases hab : strLtB a b = true
      · simp [strLtB_asymm hab, hab] at h2
      · by_cases hba : strLtB b a = true
        · simp [bool_false_of_not hab, hba] at h1
        · have hab0 := bool_false_of_not hab
          have hba0 := bool_false_of_not hba
          have heq : a = b := strLtB_eq_of_not hab0 hba0
          simp only [hab0, hba0, if_false, Bool.false_eq_true] at h1 h2
          rw [heq, ih h1 h2]

theorem pyPath_parts_inj {p q : PyPath} (h : p.parts = q.parts) : p = q := by
  cases p with
  | mk d n =>
    cases q with
    | mk e m =>
      unfold PyPath.parts at h
      have hd : d = e := by
        have := congrArg List.dropLast h
        simpa [List.dropLast_concat] using this
      have hn : n = m := by
        have := congrArg (List.getLastD · "") h
        simpa [List.getLastD_concat] using this
      rw [hd, hn]

instance : IsTotal PyPath pathLe :=
  ⟨fun p q => partsLeB_total p.parts q.parts⟩

instance : IsTrans PyPath pathLe :=
  ⟨fun _ _ _ h1 h2 => partsLeB_trans h1 h2⟩

instance : IsAntisymm PyPath pathLe :=
  ⟨fun _ _ h1 h2 => pyPath_parts_inj (partsLeB_antisymm h1 h2)⟩

/-! ## Filesystem state

A filesystem is a finite association of file paths to abstract contents
(a Nat identifying the bytes) together with the set of existing
directories.  The list order of files is the on-disk enumeration order a
glob would produce.
-/

instance {ε α : Type} [DecidableEq ε] [DecidableEq α] : DecidableEq (Except ε α) := fun a b =>
  match a, b with
  | Except.ok x, Except.ok y =>
    if h : x = y then isTrue (by rw [h]) else isFalse (by intro hc; cases hc; exact h rfl)
  | Except.ok _, Except.error _ => isFalse (by intro hc; cases hc)
  | Except.error _, Except.ok _ => isFalse (by intro hc; cases hc)
  | Except.error x, Except.error y =>
    if h : x = y then isTrue (by rw [h]) else isFalse (by intro hc; cases hc; exact h rfl)

def assocLookup : List (PyPath × Nat) → PyPath → Option Nat
  | [], _ => none
  | e :: rest, p => if e.1 = p then some e.2 else assocLookup rest p

structure FS where
  files : List (PyPath × Nat)
  dirs : List PyPath
deriving DecidableEq

def FS.lookupFile (fs : FS) (p : PyPath) : Option Nat := assocLookup fs.files p

def FS.isFile (fs : FS) (p : PyPath) : Bool := (fs.lookupFile p).isSome

def FS.isDir (fs : FS) (p : PyPath) : Bool := fs.dirs.contains p

/-- Path.exists(): true for a regular file or a directory. -/
def FS.existsPath (fs : FS) (p : PyPath) : Bool := fs.isFile p || fs.isDir p

/-- Create or replace the regular file at p with content c. -/
def FS.writeFile (fs : FS) (p : PyPath) (c : Nat) : FS :=
  ⟨(p, c) :: fs.files.filter (fun e => e.1 ≠ p), fs.dirs⟩

/-- Path.unlink(): remove the regular file at p. -/
def FS.removeFile (fs : FS) (p : PyPath) : FS :=
  ⟨fs.files.filter (fun e => e.1 ≠ p), fs.dirs⟩

/-- Path.mkdir(parents=True, exist_ok=True): the directory and all its
ancestors exist afterwards. -/
def FS.mkdirParents (fs : FS) (p : PyPath) : FS :=
  ⟨fs.files, fs.dirs ++ p.ancestors⟩

/-! ## File discovery (discover_videos) -/

/-- str.lower(), applied character by character. -/
def strToLower (s : String) : String := ⟨s.data.map Char.toLower⟩

/-- str.upper(), applied character by character. -/
def strToUpper (s : String) : String := ⟨s.data.map Char.toUpper⟩

/-- SUPPORTED_EXTS from the source module. -/
def SUPPORTED_EXTS : List String :=
  [".mp4", ".mov", ".m4v", ".avi", ".mkv", ".wmv", ".webm",
   ".mpg", ".mpeg", ".3gp", ".ts"]

/-- Which paths the glob pattern covers: "*" yields the entries directly
under the root, "**/*" yields entries at any depth below the root. -/
def globMatch (root : PyPath) (recursive : Bool) (p : PyPath) : Bool :=
  if recursive then root.parts.isPrefixOf p.dir
  else p.dir = root.parts

/-- discover_videos: raise FileNotFoundError when the root does not exist,
otherwise the sorted list of regular files matched by the glob whose
lower-cased suffix is supported.  Iterating fs.files is the composition of
the glob with the p.is_file() filter, which keeps exactly the regular
files. -/
def discover_videos (fs : FS) (root : PyPath) (recursive : Bool) :
    Except String (List PyPath) :=
  if fs.existsPath root then
    Except.ok (List.insertionSort pathLe
      ((fs.files.map Prod.fst).filter
        (fun p => globMatch root recursive p && SUPPORTED_EXTS.contains (strToLower p.suffix))))
  else Except.error "Input directory not found"

/-! ## Output path (build_output_path) -/

/-- build_output_path: (out_dir / src.stem).with_suffix(".mp4"). -/
def build_output_path (src : PyPath) (out_dir : PyPath) : PyPath :=
  (out_dir.child src.stem).withSuffix ".mp4"

/-! ## Geometry policy (resize_if_needed)

Dimensions are rationals; the external clip.resize(ratio) multiplies both
dimensions by the scale factor. -/

def resize_if_needed (w h max_w max_h : ℚ) : ℚ × ℚ :=
  if w ≤ max_w ∧ h ≤ max_h then (w, h)
  else
    let ratio := min (max_w / w) (max_h / h)
    (w * ratio, h * ratio)

/-! ## Conversion unit (convert_file)

The external pieces of one conversion are an oracle: whether VideoFileClip
raises on open, what write_videofile does (success with the encoded
content, or an exception after having created the temporary file or not),
and whether dst.unlink() or tmp.rename(dst) raise in the finalize stage.
The four statuses correspond to the returned (flag, message) pairs:
ok ~ (True, "ok: ..."), openFailed ~ (False, "open-failed: ..."),
convertFailed ~ (False, "convert-failed: ..."),
finalizeFailed ~ (False, "finalize-failed: ..."). -/

inductive EncodeResult where
  | ok (content : Nat)
  | fail (halfWritten : Option Nat)
deriving DecidableEq

structure ConvertOracle where
  openFails : Bool
  encodeResult : EncodeResult
  unlinkRaises : Bool
  renameRaises : Bool
deriving DecidableEq

inductive ConvertStatus where
  | ok
  | openFailed
  | convertFailed
  | finalizeFailed
deriving DecidableEq

/-- The temporary sibling path: dst.parent / (dst.stem + "_tmp.mp4"). -/
def tmpPath (dst : PyPath) : PyPath := ⟨dst.dir, dst.stem ++ "_tmp.mp4"⟩

/-- convert_file: open, encode into the temporary file, then finalize by
removing an existing destination and renaming the temporary file onto it.
The resize and fps computations touch no filesystem state. -/
def convert_file (oc : ConvertOracle) (fs : FS) (src dst : PyPath) :
    FS × ConvertStatus :=
  let _ := src
  let tmp := tmpPath dst
  if oc.openFails then (fs, ConvertStatus.openFailed)
  else
    match oc.encodeResult with
    | EncodeResult.fail halfWritten =>
      let fs1 := match halfWritten with
        | some c => fs.writeFile tmp c
        | none => fs
      (fs1, ConvertStatus.convertFailed)
    | EncodeResult.ok c =>
      let fs1 := fs.writeFile tmp c
      if fs1.existsPath dst && oc.unlinkRaises then (fs1, ConvertStatus.finalizeFailed)
      else
        let fs2 := if fs1.existsPath dst then fs1.removeFile dst else fs1
        if oc.renameRaises then (fs2, ConvertStatus.finalizeFailed)
        else ((fs2.removeFile tmp).writeFile dst c, ConvertStatus.ok)

/-! ## Batch orchestrator (run_batch) -/

structure Settings where
  input_dir : PyPath
  output_dir : PyPath
  recursive : Bool
  overwrite : Bool
  crf : Int
  audio_bitrate : String
  max_width : Int
  max_height : Int
  quiet : Bool
deriving DecidableEq

structure BatchState where
  fs : FS
  success : Nat
  fail : Nat
  skip : Nat
  converted : List PyPath
deriving DecidableEq

structure BatchOracle where
  ffmpegMissing : Bool
  perFile : PyPath → ConvertOracle

inductive BatchOutcome where
  | fatal (fs : FS) (msg : String)
  | done (st : BatchState) (code : Int)
deriving DecidableEq

def BatchOutcome.finalFS : BatchOutcome → FS
  | BatchOutcome.fatal fs _ => fs
  | BatchOutcome.done st _ => st.fs

/-- One iteration of the run_batch loop: skip when the destination exists
and overwrite is unset, otherwise call convert_file and count the result.
converted records every source for which the conversion unit ran. -/
def batchStep (oc : BatchOracle) (overwrite : Bool) (out_dir : PyPath)
    (st : BatchState) (src : PyPath) : BatchState :=
  let dst := build_output_path src out_dir
  if st.fs.existsPath dst && !overwrite then
    { st with skip := st.skip + 1 }
  else
    let r := convert_file (oc.perFile src) st.fs src dst
    if r.2 = ConvertStatus.ok then
      ⟨r.1, st.success + 1, st.fail, st.skip, st.converted ++ [src]⟩
    else
      ⟨r.1, st.success, st.fail + 1, st.skip, st.converted ++ [src]⟩

/-- run_batch: check the encoder binary, create the output directory with
parents, discover inputs, then fold the per-file loop; return 1 when no
input file was found, otherwise 0 when no file failed and 1 when one did.
An escaping exception is the fatal outcome carrying the filesystem state
at the raise point. -/
def run_batch (oc : BatchOracle) (fs : FS) (s : Settings) : BatchOutcome :=
  if oc.ffmpegMissing then BatchOutcome.fatal fs "FFmpeg binary not found."
  else
    let fs1 := fs.mkdirParents s.output_dir
    match discover_videos fs1 s.input_dir s.recursive with
    | Except.error e => BatchOutcome.fatal fs1 e
    | Except.ok files =>
      if files = [] then BatchOutcome.done ⟨fs1, 0, 0, 0, []⟩ 1
      else
        let final := files.foldl (batchStep oc s.overwrite s.output_dir) ⟨fs1, 0, 0, 0, []⟩
        BatchOutcome.done final (if final.fail = 0 then 0 else 1)

/-! ## Argument parsing (parse_args) and entry point (main) -/

/-- The values argparse extracted from the flags, before validation. -/
structure RawArgs where
  input : PyPath
  output : PyPath
  recursive : Bool
  overwrite : Bool
  crf : Int
  audio_bitrate : String
  max_width : Int
  max_height : Int
  quiet : Bool
deriving DecidableEq

/-- parse_args: parser.error (SystemExit with process exit code 2) when the
crf lies outside 18..35, otherwise the validated Settings.  Path.resolve()
is the identity in this model. -/
def parse_args (a : RawArgs) : Except Int Settings :=
  if ¬ (18 ≤ a.crf ∧ a.crf ≤ 35) then Except.error 2
  else Except.ok ⟨a.input, a.output, a.recursive, a.overwrite, a.crf,
    a.audio_bitrate, a.max_width, a.max_height, a.quiet⟩

/-- The process exit code of main together with the final filesystem and
the list of sources the conversion unit ran on.  SystemExit from argparse
is not an Exception, so it reaches the interpreter and sets the exit code;
a KeyboardInterrupt (modelled as arriving before any effect) gives 130 and
any other escaping exception gives 2.  run_post_check only spawns the
external verifier and changes no state. -/
def pymain (interrupted : Bool) (oc : BatchOracle) (fs : FS) (a : RawArgs) :
    Int × FS × List PyPath :=
  if interrupted then (130, fs, [])
  else
    match parse_args a with
    | Except.error c => (c, fs, [])
    | Except.ok s =>
      match run_batch oc fs s with
      | BatchOutcome.fatal gs _ => (2, gs, [])
      | BatchOutcome.done st code => (code, st.fs, st.converted)

/-! ## Compliance verifier (check_file and the scan loop)

The prober is an oracle: one probed file either yields the two key/value
maps for the first video and first audio stream, or raises. -/

abbrev ProbeMap := List (String × String)

def probeGet : ProbeMap → String → Option String
  | [], _ => none
  | e :: rest, k => if e.1 = k then some e.2 else probeGet rest k

def probeGetD (m : ProbeMap) (k d : String) : String :=
  match probeGet m k with
  | some v => v
  | none => d

inductive ProbeOutcome where
  | ok (v a : ProbeMap)
  | exn (msg : String)
deriving DecidableEq

/-- check_file: the conjunction of the six attribute checks; a probing
exception is caught and yields False for that file. -/
def check_file (po : ProbeOutcome) : Bool :=
  match po with
  | ProbeOutcome.exn _ => false
  | ProbeOutcome.ok v a =>
    decide (probeGet v "codec_name" = some "h264") &&
    decide (probeGet v "profile" = some "High") &&
    (decide (probeGet v "level" = some "41") || decide (probeGet v "level" = some "42")) &&
    decide (probeGet v "pix_fmt" = some "yuv420p") &&
    decide (probeGet a "codec_name" = some "aac") &&
    decide (strToUpper (probeGetD a "profile" "") = "LC")

/-- The verifier main loop: count of files examined and the aggregate
all_ok flag. -/
def verifier_scan : List ProbeOutcome → Bool → Nat × Bool
  | [], allOk => (0, allOk)
  | po :: rest, allOk =>
    let ok := check_file po
    let r := verifier_scan rest (allOk && ok)
    (r.1 + 1, r.2)

/-- The verifier exit code: 1 when no file was found or any file failed,
otherwise 0. -/
def verifier_main (outcomes : List ProbeOutcome) : Int :=
  if outcomes = [] then 1
  else if (verifier_scan outcomes true).2 then 0 else 1

/-! ## Supporting lemmas -/

theorem assocLookup_isSome (l : List (PyPath × Nat)) (p : PyPath) :
    (assocLookup l p).isSome = true ↔ p ∈ l.map Prod.fst := by
  induction l with
  | nil => simp [assocLookup]
  | cons e rest ih =>
    by_cases he : e.1 = p
    · simp [assocLookup, he]
    · simp only [assocLookup, he, if_false, List.map_cons, List.mem_cons, ih]
      constructor
      · intro hm; right; exact hm
      · intro hm
        rcases hm with hm | hm
        · exact absurd hm.symm he
        · exact hm

theorem isFile_iff_mem (fs : FS) (p : PyPath) :
    fs.isFile p = true ↔ p ∈ fs.files.map Prod.fst := by
  unfold FS.isFile FS.lookupFile
  exact assocLookup_isSome fs.files p

theorem lookupFile_writeFile_same (fs : FS) (p : PyPath) (c : Nat) :
    (fs.writeFile p c).lookupFile p = some c := by
  unfold FS.writeFile FS.lookupFile
  simp [assocLookup]

theorem assocLookup_filter_ne (l : List (PyPath × Nat)) (p q : PyPath) (h : q ≠ p) :
    assocLookup (l.filter (fun e => e.1 ≠ p)) q = assocLookup l q := by
  induction l with
  | nil => rfl
  | cons e rest ih =>
    by_cases he : e.1 = p
    · have hpq : ¬ p = q := fun hpq => h hpq.symm
      simp only [List.filter_cons, assocLookup, he, hpq, ne_eq, decide_not,
        decide_True, Bool.not_true, Bool.false_eq_true, if_false]
      simpa using ih
    · by_cases heq : e.1 = q
      · simp only [List.filter_cons, ne_eq, he, decide_not]
        simp only [decide_False, Bool.not_false, if_true, assocLookup, heq, if_pos]
      · simp only [List.filter_cons, ne_eq, he, decide_not]
        simp only [decide_False, Bool.not_false, if_true, assocLookup, heq, if_false]
        simpa using ih

theorem lookupFile_writeFile_ne (fs : FS) (p q : PyPath) (c : Nat) (h : q ≠ p) :
    (fs.writeFile p c).lookupFile q = fs.lookupFile q := by
  unfold FS.writeFile FS.lookupFile
  simp only [assocLookup]
  rw [if_neg (fun he => h he.symm)]
  exact assocLookup_filter_ne fs.files p q h

theorem lookupFile_removeFile_ne (fs : FS) (p q : PyPath) (h : q ≠ p) :
    (fs.removeFile p).lookupFile q = fs.lookupFile q := by
  unfold FS.removeFile FS.lookupFile
  exact assocLookup_filter_ne fs.files p q h

theorem partsToPath_parts (p : PyPath) : partsToPath p.parts = p := by
  cases p with
  | mk d n =>
    unfold partsToPath PyPath.parts
    simp [List.dropLast_concat, List.getLastD_concat]

theorem mem_ancestors_self (p : PyPath) : p ∈ p.ancestors := by
  unfold PyPath.ancestors
  have hk : p.dir.length ∈ List.range (p.dir.length + 1) := by
    simp
  refine List.mem_map.mpr ⟨p.dir.length, hk, ?_⟩
  have hlen : p.parts.length = p.dir.length + 1 := by
    unfold PyPath.parts; simp
  rw [← hlen, List.take_length]
  exact partsToPath_parts p

theorem isDir_mkdirParents_self (fs : FS) (p : PyPath) :
    (fs.mkdirParents p).isDir p = true := by
  unfold FS.mkdirParents FS.isDir
  exact List.elem_eq_true_of_mem
    (List.mem_append.mpr (Or.inr (mem_ancestors_self p)))

theorem existsPath_of_isDir {fs : FS} {p : PyPath} (h : fs.isDir p = true) :
    fs.existsPath p = true := by
  unfold FS.existsPath
  rw [h, Bool.or_true]

theorem tmpPath_ne (dst : PyPath) : tmpPath dst ≠ dst := by
  intro h
  unfold tmpPath at h
  have hname : PyPath.stem dst ++ "_tmp.mp4" = dst.name := congrArg PyPath.name h
  unfold PyPath.stem at hname
  have hsplit : strStem dst.name ++ strSuffix dst.name = dst.name :=
    strStem_append_strSuffix dst.name
  have hcat : strStem dst.name ++ "_tmp.mp4" = strStem dst.name ++ strSuffix dst.name :=
    hname.trans hsplit.symm
  have hdata := congrArg String.data hcat
  rw [String.data_append, String.data_append] at hdata
  have hsfx : ("_tmp.mp4" : String).data = (strSuffix dst.name).data :=
    List.append_cancel_left hdata
  rcases strSuffix_empty_or_head_dot dst.name with he | hd
  · rw [he] at hsfx
    exact absurd hsfx (by decide)
  · rw [← hsfx] at hd
    exact absurd hd (by decide)

theorem convert_file_dirs (oc : ConvertOracle) (fs : FS) (src dst : PyPath) :
    ((convert_file oc fs src dst).1).dirs = fs.dirs := by
  unfold convert_file
  dsimp only
  repeat' split
  all_goals rfl

theorem batchStep_dirs (oc : BatchOracle) (ov : Bool) (out : PyPath)
    (st : BatchState) (src : PyPath) :
    (batchStep oc ov out st src).fs.dirs = st.fs.dirs := by
  unfold batchStep
  by_cases h1 : (st.fs.existsPath (build_output_path src out) && !ov) = true
  · simp [h1]
  · simp only [h1, if_false, Bool.false_eq_true]
    by_cases h2 : (convert_file (oc.perFile src) st.fs src (build_output_path src out)).2
        = ConvertStatus.ok
    · simp [h2, convert_file_dirs]
    · simp [h2, convert_file_dirs]

theorem foldl_batchStep_dirs (oc : BatchOracle) (ov : Bool) (out : PyPath)
    (files : List PyPath) (st : BatchState) :
    (files.foldl (batchStep oc ov out) st).fs.dirs = st.fs.dirs := by
  induction files generalizing st with
  | nil => rfl
  | cons f rest ih => rw [List.foldl_cons, ih, batchStep_dirs]

theorem verifier_scan_length (l : List ProbeOutcome) (b : Bool) :
    (verifier_scan l b).1 = l.length := by
  induction l generalizing b with
  | nil => rfl
  | cons po rest ih => simp [verifier_scan, ih]

theorem verifier_scan_allOk (l : List ProbeOutcome) (b : Bool) :
    (verifier_scan l b).2 = (b && l.all check_file) := by
  induction l generalizing b with
  | nil => simp [verifier_scan]
  | cons po rest ih =>
    simp only [verifier_scan, ih, List.all_cons]
    rw [Bool.and_assoc]

theorem lookupFile_removeFile_same (fs : FS) (p : PyPath) :
    (fs.removeFile p).lookupFile p = none := by
  unfold FS.removeFile FS.lookupFile
  induction fs.files with
  | nil => rfl
  | cons e rest ih =>
    by_cases he : e.1 = p
    · simpa [List.filter_cons, he] using ih
    · simpa [List.filter_cons, he, assocLookup] using ih

theorem convert_file_open_eq (oc : ConvertOracle) (fs : FS) (src dst : PyPath)
    (h : oc.openFails = true) :
    convert_file oc fs src dst = (fs, ConvertStatus.openFailed) := by
  unfold convert_file
  simp [h]

theorem convert_file_fail_some_eq (oc : ConvertOracle) (fs : FS) (src dst : PyPath) (c : Nat)
    (h1 : oc.openFails = false) (h2 : oc.encodeResult = EncodeResult.fail (some c)) :
    convert_file oc fs src dst
      = (fs.writeFile (tmpPath dst) c, ConvertStatus.convertFailed) := by
  unfold convert_file
  simp [h1, h2]

theorem convert_file_fail_none_eq (oc : ConvertOracle) (fs : FS) (src dst : PyPath)
    (h1 : oc.openFails = false) (h2 : oc.encodeResult = EncodeResult.fail none) :
    convert_file oc fs src dst = (fs, ConvertStatus.convertFailed) := by
  unfold convert_file
  simp [h1, h2]

theorem convert_file_ok_eq (oc : ConvertOracle) (fs : FS) (src dst : PyPath) (c : Nat)
    (h1 : oc.openFails = false) (h2 : oc.encodeResult = EncodeResult.ok c)
    (h3 : oc.unlinkRaises = false) (h4 : oc.renameRaises = false) :
    convert_file oc fs src dst
      = (((if (fs.writeFile (tmpPath dst) c).existsPath dst = true
            then (fs.writeFile (tmpPath dst) c).removeFile dst
            else fs.writeFile (tmpPath dst) c).removeFile (tmpPath dst)).writeFile dst c,
          ConvertStatus.ok) := by
  unfold convert_file
  simp [h1, h2, h3, h4]

theorem convert_file_unlink_raise_eq (oc : ConvertOracle) (fs : FS) (src dst : PyPath) (c : Nat)
    (h1 : oc.openFails = false) (h2 : oc.encodeResult = EncodeResult.ok c)
    (h3 : oc.unlinkRaises = true)
    (hex : (fs.writeFile (tmpPath dst) c).existsPath dst = true) :
    convert_file oc fs src dst
      = (fs.writeFile (tmpPath dst) c, ConvertStatus.finalizeFailed) := by
  unfold convert_file
  simp [h1, h2, h3, hex]

theorem convert_file_publish_eq (oc : ConvertOracle) (fs : FS) (src dst : PyPath) (c : Nat)
    (h1 : oc.openFails = false) (h2 : oc.encodeResult = EncodeResult.ok c)
    (hno : ((fs.writeFile (tmpPath dst) c).existsPath dst && oc.unlinkRaises) = false)
    (h4 : oc.renameRaises = false) :
    convert_file oc fs src dst
      = (((if (fs.writeFile (tmpPath dst) c).existsPath dst = true
            then (fs.writeFile (tmpPath dst) c).removeFile dst
            else fs.writeFile (tmpPath dst) c).removeFile (tmpPath dst)).writeFile dst c,
          ConvertStatus.ok) := by
  unfold convert_file
  simp only [h1, h2, Bool.false_eq_true, if_false]
  rw [hno]
  simp [h4]

theorem convert_file_rename_raise_eq (oc : ConvertOracle) (fs : FS) (src dst : PyPath) (c : Nat)
    (h1 : oc.openFails = false) (h2 : oc.encodeResult = EncodeResult.ok c)
    (h4 : oc.renameRaises = true)
    (hno : ((fs.writeFile (tmpPath dst) c).existsPath dst && oc.unlinkRaises) = false) :
    convert_file oc fs src dst
      = (if (fs.writeFile (tmpPath dst) c).existsPath dst = true
          then (fs.writeFile (tmpPath dst) c).removeFile dst
          else fs.writeFile (tmpPath dst) c, ConvertStatus.finalizeFailed) := by
  unfold convert_file
  simp only [h1, h2, Bool.false_eq_true, if_false]
  rw [hno]
  simp [h4]

/-! ## Claim C1 -/

def fsC1 : FS := ⟨[], [⟨[], "out"⟩]⟩

def srcC1 : PyPath := ⟨["in"], "a.mov"⟩

def dstC1 : PyPath := ⟨["out"], "a.mp4"⟩

def ocC1 : ConvertOracle := ⟨false, EncodeResult.fail (some 5), false, false⟩

/-- C1 counterexample: a conversion whose encoder step fails after having
created the temporary file returns convert-failure with the temporary file
still present, refuting the claim that the conversion unit removes the
temporary file before returning on convert-failure. -/
theorem C1_counterexample :
    (convert_file ocC1 fsC1 srcC1 dstC1).2 = ConvertStatus.convertFailed
    ∧ FS.isFile (convert_file ocC1 fsC1 srcC1 dstC1).1 (tmpPath dstC1) = true := by
  decide

/-- C1 (amended): when the encoder step fails, convert_file returns
convert-failure with the destination file neither created nor modified, but
it does not remove the temporary file: whatever the encoder wrote at the
temporary path persists. -/
theorem C1_theorem (oc : ConvertOracle) (fs : FS) (src dst : PyPath)
    (h : (convert_file oc fs src dst).2 = ConvertStatus.convertFailed) :
    FS.lookupFile (convert_file oc fs src dst).1 dst = FS.lookupFile fs dst
    ∧ (∀ c, oc.encodeResult = EncodeResult.fail (some c) →
        FS.lookupFile (convert_file oc fs src dst).1 (tmpPath dst) = some c) := by
  cases hop : oc.openFails with
  | true =>
    rw [convert_file_open_eq oc fs src dst hop] at h
    cases h
  | false =>
    cases henc : oc.encodeResult with
    | ok c =>
      exfalso
      rw [convert_file] at h
      simp only [hop, Bool.false_eq_true, if_false, henc] at h
      repeat' split at h
      all_goals cases h
    | fail hw =>
      cases hw with
      | none =>
        rw [convert_file_fail_none_eq oc fs src dst hop henc]
        refine ⟨rfl, ?_⟩
        intro c hc
        simp at hc
      | some c =>
        rw [convert_file_fail_some_eq oc fs src dst c hop henc]
        constructor
        · exact lookupFile_writeFile_ne fs (tmpPath dst) dst c (Ne.symm (tmpPath_ne dst))
        · intro c2 hc
          injection hc with hc2
          injection hc2 with hc3
          rw [← hc3]
          exact lookupFile_writeFile_same fs (tmpPath dst) c

/-- C1 witness: the amended statement at a concrete failing conversion. -/
theorem C1_witness :
    FS.lookupFile (convert_file ocC1 fsC1 srcC1 dstC1).1 dstC1 = FS.lookupFile fsC1 dstC1
    ∧ FS.lookupFile (convert_file ocC1 fsC1 srcC1 dstC1).1 (tmpPath dstC1) = some 5 :=
  ⟨(C1_theorem ocC1 fsC1 srcC1 dstC1 (by decide)).1,
    (C1_theorem ocC1 fsC1 srcC1 dstC1 (by decide)).2 5 (by decide)⟩

/-! ## Claim C7 -/

/-- C7: in the finalize stage an existing destination is removed and the
temporary file renamed onto it (so after a successful conversion the
destination holds the encoded content and the temporary file is gone); any
exception in this stage yields the finalize-failure status, distinct from
open-failure and convert-failure, and in that case the temporary file is
left in place. -/
theorem C7_theorem (oc : ConvertOracle) (fs : FS) (src dst : PyPath) (c : Nat)
    (hopen : oc.openFails = false) (henc : oc.encodeResult = EncodeResult.ok c) :
    (oc.unlinkRaises = false ∧ oc.renameRaises = false →
      (convert_file oc fs src dst).2 = ConvertStatus.ok
      ∧ FS.lookupFile (convert_file oc fs src dst).1 dst = some c
      ∧ FS.isFile (convert_file oc fs src dst).1 (tmpPath dst) = false)
    ∧ ((convert_file oc fs src dst).2 = ConvertStatus.finalizeFailed →
      FS.isFile (convert_file oc fs src dst).1 (tmpPath dst) = true)
    ∧ ((convert_file oc fs src dst).2 = ConvertStatus.finalizeFailed ↔
      ((fs.writeFile (tmpPath dst) c).existsPath dst = true ∧ oc.unlinkRaises = true)
        ∨ oc.renameRaises = true)
    ∧ ConvertStatus.finalizeFailed ≠ ConvertStatus.openFailed
    ∧ ConvertStatus.finalizeFailed ≠ ConvertStatus.convertFailed := by
  have htmp : FS.isFile (fs.writeFile (tmpPath dst) c) (tmpPath dst) = true := by
    unfold FS.isFile
    rw [lookupFile_writeFile_same]
    rfl
  have hremtmp : ∀ g : FS,
      FS.isFile (g.removeFile dst) (tmpPath dst) = FS.isFile g (tmpPath dst) := by
    intro g
    unfold FS.isFile
    rw [lookupFile_removeFile_ne g dst (tmpPath dst) (tmpPath_ne dst)]
  cases hul : oc.unlinkRaises with
  | true =>
    by_cases hex : (fs.writeFile (tmpPath dst) c).existsPath dst = true
    · rw [convert_file_unlink_raise_eq oc fs src dst c hopen henc hul hex]
      refine ⟨?_, ?_, ?_, by decide, by decide⟩
      · intro hcon
        cases hcon.1
      · intro _
        exact htmp
      · simp [hex, hul]
    · cases hrn : oc.renameRaises with
      | true =>
        rw [convert_file_rename_raise_eq oc fs src dst c hopen henc hrn
          (by rw [bool_false_of_not hex, Bool.false_and])]
        rw [if_neg hex]
        refine ⟨?_, ?_, ?_, by decide, by decide⟩
        · intro hcon
          cases hcon.2
        · intro _
          exact htmp
        · simp [hex, hrn]
      | false =>
        rw [convert_file_publish_eq oc fs src dst c hopen henc
          (by rw [bool_false_of_not hex, Bool.false_and]) hrn]
        rw [if_neg hex]
        refine ⟨?_, ?_, ?_, by decide, by decide⟩
        · intro hcon
          cases hcon.1
        · intro hcon
          cases hcon
        · simp [bool_false_of_not hex, hrn]
  | false =>
    cases hrn : oc.renameRaises with
    | true =>
      by_cases hex : (fs.writeFile (tmpPath dst) c).existsPath dst = true
      · rw [convert_file_rename_raise_eq oc fs src dst c hopen henc hrn
          (by rw [hul, Bool.and_false])]
        rw [if_pos hex]
        refine ⟨?_, ?_, ?_, by decide, by decide⟩
        · intro hcon
          cases hcon.2
        · intro _
          rw [hremtmp]
          exact htmp
        · simp [hrn]
      · rw [convert_file_rename_raise_eq oc fs src dst c hopen henc hrn
          (by rw [hul, Bool.and_false])]
        rw [if_neg hex]
        refine ⟨?_, ?_, ?_, by decide, by decide⟩
        · intro hcon
          cases hcon.2
        · intro _
          exact htmp
        · simp [hrn]
    | false =>
      rw [convert_file_ok_eq oc fs src dst c hopen henc hul hrn]
      refine ⟨?_, ?_, ?_, by decide, by decide⟩
      · intro _
        refine ⟨rfl, ?_, ?_⟩
        · exact lookupFile_writeFile_same _ dst c
        · unfold FS.isFile
          rw [lookupFile_writeFile_ne _ dst (tmpPath dst) c (tmpPath_ne dst),
            lookupFile_removeFile_same]
          rfl
      · intro hcon
        cases hcon
      · simp [hul, hrn]

def fsW7 : FS := ⟨[(⟨["out"], "a.mp4"⟩, 9)], [⟨[], "out"⟩]⟩

def srcW7 : PyPath := ⟨["in"], "a.mov"⟩

def dstW7 : PyPath := ⟨["out"], "a.mp4"⟩

def ocW7 : ConvertOracle := ⟨false, EncodeResult.ok 5, true, false⟩

/-- C7 witness: a conversion whose unlink of the existing destination
raises ends as finalize-failure with the temporary file left in place. -/
theorem C7_witness :
    FS.isFile (convert_file ocW7 fsW7 srcW7 dstW7).1 (tmpPath dstW7) = true
    ∧ ConvertStatus.finalizeFailed ≠ ConvertStatus.openFailed :=
  ⟨(C7_theorem ocW7 fsW7 srcW7 dstW7 5 (by decide) (by decide)).2.1 (by decide),
    (C7_theorem ocW7 fsW7 srcW7 dstW7 5 (by decide) (by decide)).2.2.2.1⟩

/-! ## Claim C5 -/

/-- C5: the geometry policy is pure and returns the identical dimensions
when both are within their maxima (hence it is idempotent), and otherwise
scales both dimensions by the single factor min(max_w / w, max_h / h), so
the width/height ratio is preserved and neither result exceeds its
maximum. -/
theorem C5_theorem (w h max_w max_h : ℚ)
    (hw : 0 < w) (hh : 0 < h) (_hmw : 0 < max_w) (_hmh : 0 < max_h) :
    (w ≤ max_w ∧ h ≤ max_h → resize_if_needed w h max_w max_h = (w, h))
    ∧ resize_if_needed (resize_if_needed w h max_w max_h).1
        (resize_if_needed w h max_w max_h).2 max_w max_h
        = resize_if_needed w h max_w max_h
    ∧ (resize_if_needed w h max_w max_h).1 * h = (resize_if_needed w h max_w max_h).2 * w
    ∧ (resize_if_needed w h max_w max_h).1 ≤ max_w
    ∧ (resize_if_needed w h max_w max_h).2 ≤ max_h := by
  by_cases hin : w ≤ max_w ∧ h ≤ max_h
  · have hres : resize_if_needed w h max_w max_h = (w, h) := by
      simp [resize_if_needed, hin]
    rw [hres]
    exact ⟨fun _ => rfl, by simp [resize_if_needed, hin], by ring, hin.1, hin.2⟩
  · have hres : resize_if_needed w h max_w max_h
        = (w * min (max_w / w) (max_h / h), h * min (max_w / w) (max_h / h)) := by
      simp [resize_if_needed, hin]
    have hb1 : w * min (max_w / w) (max_h / h) ≤ max_w := by
      calc w * min (max_w / w) (max_h / h) ≤ w * (max_w / w) :=
            mul_le_mul_of_nonneg_left (min_le_left _ _) hw.le
        _ = max_w := by rw [mul_comm]; exact div_mul_cancel₀ max_w hw.ne'
    have hb2 : h * min (max_w / w) (max_h / h) ≤ max_h := by
      calc h * min (max_w / w) (max_h / h) ≤ h * (max_h / h) :=
            mul_le_mul_of_nonneg_left (min_le_right _ _) hh.le
        _ = max_h := by rw [mul_comm]; exact div_mul_cancel₀ max_h hh.ne'
    rw [hres]
    refine ⟨fun hcon => absurd hcon hin, ?_, by ring, hb1, hb2⟩
    simp [resize_if_needed, hb1, hb2]

/-- C5 witness: the theorem applied to a 3840x2160 clip bounded by
1920x1080. -/
theorem C5_witness :
    (0:ℚ) < 3840 ∧
    (((3840:ℚ) ≤ 1920 ∧ (2160:ℚ) ≤ 1080 →
        resize_if_needed 3840 2160 1920 1080 = (3840, 2160))
      ∧ resize_if_needed (resize_if_needed 3840 2160 1920 1080).1
          (resize_if_needed 3840 2160 1920 1080).2 1920 1080
          = resize_if_needed 3840 2160 1920 1080
      ∧ (resize_if_needed 3840 2160 1920 1080).1 * 2160
          = (resize_if_needed 3840 2160 1920 1080).2 * 3840
      ∧ (resize_if_needed 3840 2160 1920 1080).1 ≤ 1920
      ∧ (resize_if_needed 3840 2160 1920 1080).2 ≤ 1080) :=
  ⟨by decide,
    C5_theorem 3840 2160 1920 1080 (by decide) (by decide) (by decide) (by decide)⟩

/-! ## Claim C2 -/

/-- C2: a probed output file passes if and only if its video codec is h264,
video profile exactly High, video level one of the strings 41 and 42, pixel
format yuv420p, audio codec aac and upper-cased audio profile LC; a probing
exception is caught and counted as a failure for that file only, and the
scan still visits every remaining file. -/
theorem C2_theorem (v a : ProbeMap) (msg : String) (pres posts : List ProbeOutcome) :
    (check_file (ProbeOutcome.ok v a) = true ↔
      (probeGet v "codec_name" = some "h264"
        ∧ probeGet v "profile" = some "High"
        ∧ (probeGet v "level" = some "41" ∨ probeGet v "level" = some "42")
        ∧ probeGet v "pix_fmt" = some "yuv420p"
        ∧ probeGet a "codec_name" = some "aac"
        ∧ strToUpper (probeGetD a "profile" "") = "LC"))
    ∧ check_file (ProbeOutcome.exn msg) = false
    ∧ (verifier_scan (pres ++ ProbeOutcome.exn msg :: posts) true).1
        = pres.length + 1 + posts.length
    ∧ (verifier_scan (pres ++ ProbeOutcome.exn msg :: posts) true).2 = false := by
  refine ⟨?_, rfl, ?_, ?_⟩
  · simp only [check_file, Bool.and_eq_true, decide_eq_true_eq, Bool.or_eq_true, and_assoc]
  · rw [verifier_scan_length]
    simp only [List.length_append, List.length_cons]
    omega
  · rw [verifier_scan_allOk]
    simp [List.all_append, check_file]

/-! ## Claim C8 -/

def fsC8 : FS := ⟨[], [⟨[], "in"⟩]⟩

def ocC8 : BatchOracle := ⟨false, fun _ => ⟨false, EncodeResult.ok 0, false, false⟩⟩

def argsCrf40 : RawArgs := ⟨⟨[], "in"⟩, ⟨[], "out"⟩, false, false, 40, "160k", 1920, 1080, false⟩

/-- C8: configuration construction succeeds if and only if the quality
factor lies in 18..35; outside that range the run exits with the
configuration-error code before any discovery or conversion: the
filesystem is untouched and the conversion unit never ran. -/
theorem C8_theorem (a : RawArgs) (oc : BatchOracle) (fs : FS) :
    ((parse_args a).isOk = true ↔ (18 ≤ a.crf ∧ a.crf ≤ 35))
    ∧ (¬ (18 ≤ a.crf ∧ a.crf ≤ 35) → pymain false oc fs a = (2, fs, [])) := by
  constructor
  · by_cases hc : 18 ≤ a.crf ∧ a.crf ≤ 35
    · simp [parse_args, hc, Except.isOk, Except.toBool]
    · simp [parse_args, hc, Except.isOk, Except.toBool]
  · intro hc
    simp [pymain, parse_args, hc]

/-- C8 witness: quality factor 40 is rejected with exit code 2 and no
effect on the filesystem or any conversion. -/
theorem C8_witness :
    ¬ ((18:Int) ≤ 40 ∧ (40:Int) ≤ 35)
    ∧ pymain false ocC8 fsC8 argsCrf40 = (2, fsC8, []) :=
  ⟨by decide, (C8_theorem argsCrf40 ocC8 fsC8).2 (by decide)⟩

/-! ## Claim C9 -/

theorem withSuffix_name (d : List String) (n s : String) :
    PyPath.withSuffix ⟨d, n⟩ s = ⟨d, strStem n ++ s⟩ := by
  unfold PyPath.withSuffix PyPath.suffix PyPath.stem
  dsimp only
  by_cases hs : strSuffix n = ""
  · rw [if_pos hs, strSuffix_empty_stem n hs]
  · rw [if_neg hs]

theorem build_output_path_eq (src out : PyPath) :
    build_output_path src out = ⟨out.parts, strStem src.stem ++ ".mp4"⟩ :=
  withSuffix_name out.parts src.stem ".mp4" 

/-- C9 counterexample: for the source name archive.tar.gz the destination
is not the output directory joined with the stem plus ".mp4" (which would
be archive.tar.mp4): with_suffix replaces the last extension of the stem,
giving archive.mp4. -/
theorem C9_counterexample :
    build_output_path ⟨[], "archive.tar.gz"⟩ ⟨[], "out"⟩
      ≠ PyPath.child ⟨[], "out"⟩ (PyPath.stem ⟨[], "archive.tar.gz"⟩ ++ ".mp4") := by
  decide

/-- C9 (amended): the destination is the output directory joined with the
source stem whose own final extension (if any) is replaced by ".mp4",
discarding the source extension and any subdirectory; hence sources with
equal stems share one destination, and the one processed later is skipped
when the destination now exists with overwrite unset, or replaces the
destination content when overwrite is set and the conversion succeeds. -/
theorem C9_theorem (s1 s2 out : PyPath) (oc : BatchOracle) (st : BatchState) (c : Nat)
    (hstem : s1.stem = s2.stem) :
    build_output_path s1 out = build_output_path s2 out
    ∧ build_output_path s1 out = ⟨out.dir ++ [out.name], strStem s1.stem ++ ".mp4"⟩
    ∧ (FS.existsPath st.fs (build_output_path s2 out) = true →
        batchStep oc false out st s2 = { st with skip := st.skip + 1 })
    ∧ (oc.perFile s2 = ⟨false, EncodeResult.ok c, false, false⟩ →
        FS.lookupFile (batchStep oc true out st s2).fs (build_output_path s2 out) = some c) := by
  refine ⟨?_, build_output_path_eq s1 out, ?_, ?_⟩
  · rw [build_output_path_eq s1 out, build_output_path_eq s2 out, hstem]
  · intro hex
    unfold batchStep
    simp [hex]
  · intro hperf
    unfold batchStep
    simp only [Bool.not_true, Bool.and_false, Bool.false_eq_true, if_false]
    rw [hperf]
    rw [convert_file_publish_eq ⟨false, EncodeResult.ok c, false, false⟩ st.fs s2
      (build_output_path s2 out) c rfl rfl (by rw [Bool.and_false]) rfl]
    simp [lookupFile_writeFile_same]

def outW9 : PyPath := ⟨[], "out"⟩

def stW9 : BatchState := ⟨⟨[], [⟨[], "out"⟩]⟩, 0, 0, 0, []⟩

def ocW9 : BatchOracle := ⟨false, fun _ => ⟨false, EncodeResult.ok 3, false, false⟩⟩

/-- C9 witness: a.mov and a.avi map to the same destination a.mp4, and with
overwrite set the conversion of the later file writes that destination. -/
theorem C9_witness :
    build_output_path ⟨["in"], "a.mov"⟩ outW9 = build_output_path ⟨["in"], "a.avi"⟩ outW9
    ∧ build_output_path ⟨["in"], "a.mov"⟩ outW9 = ⟨["out"], "a.mp4"⟩
    ∧ FS.lookupFile (batchStep ocW9 true outW9 stW9 ⟨["in"], "a.avi"⟩).fs
        (build_output_path ⟨["in"], "a.avi"⟩ outW9) = some 3 := by
  have h := C9_theorem ⟨["in"], "a.mov"⟩ ⟨["in"], "a.avi"⟩ outW9 ocW9 stW9 3 (by decide)
  exact ⟨h.1, h.2.1, h.2.2.2 (by decide)⟩

/-! ## Claim C6 -/

def fsC6 : FS :=
  ⟨[(⟨["in"], "x.mov"⟩, 1), (⟨["in"], "x_tmp.avi"⟩, 2), (⟨["out"], "x_tmp.mp4"⟩, 7)],
    [⟨[], "in"⟩, ⟨[], "out"⟩]⟩

def sC6 : Settings := ⟨⟨[], "in"⟩, ⟨[], "out"⟩, false, false, 22, "160k", 1920, 1080, false⟩

def ocC6 : BatchOracle :=
  ⟨false, fun p => ⟨false, EncodeResult.ok (if p.name = "x.mov" then 11 else 12), false, false⟩⟩

/-- C6 counterexample: with overwrite unset, converting x.mov writes its
temporary file at x_tmp.mp4, which is also the pre-existing destination of
the discovered source x_tmp.avi; after the batch that destination holds
different content (12 instead of 7), so an existing destination was
overwritten although the overwrite flag was not set. -/
theorem C6_counterexample :
    sC6.overwrite = false
    ∧ FS.lookupFile fsC6 ⟨["out"], "x_tmp.mp4"⟩ = some 7
    ∧ build_output_path ⟨["in"], "x_tmp.avi"⟩ sC6.output_dir = ⟨["out"], "x_tmp.mp4"⟩
    ∧ discover_videos (fsC6.mkdirParents sC6.output_dir) sC6.input_dir sC6.recursive
        = Except.ok [⟨["in"], "x.mov"⟩, ⟨["in"], "x_tmp.avi"⟩]
    ∧ FS.lookupFile (run_batch ocC6 fsC6 sC6).finalFS ⟨["out"], "x_tmp.mp4"⟩ = some 12 := by
  decide

/-- C6 (amended): whenever the destination of a file exists at the moment
that file is processed and the overwrite flag is unset, the orchestrator
skips it, incrementing only the skip count, leaving the filesystem
untouched and never invoking the conversion unit; a destination can
nonetheless be overwritten with overwrite unset when it coincides with the
temporary path (stem + "_tmp.mp4") of another conversion of the batch. -/
theorem C6_theorem (oc : BatchOracle) (out : PyPath) (st : BatchState) (src : PyPath)
    (h : FS.existsPath st.fs (build_output_path src out) = true) :
    batchStep oc false out st src = { st with skip := st.skip + 1 }
    ∧ FS.lookupFile (run_batch ocC6 fsC6 sC6).finalFS ⟨["out"], "x_tmp.mp4"⟩ = some 12 := by
  constructor
  · unfold batchStep
    simp [h]
  · decide

def ocW6 : BatchOracle := ⟨false, fun _ => ⟨false, EncodeResult.ok 0, false, false⟩⟩

def stW6 : BatchState := ⟨⟨[(⟨["out"], "a.mp4"⟩, 4)], [⟨[], "out"⟩]⟩, 0, 0, 0, []⟩

/-- C6 witness: a file whose destination a.mp4 already exists is skipped,
with only the skip count incremented. -/
theorem C6_witness :
    batchStep ocW6 false ⟨[], "out"⟩ stW6 ⟨["in"], "a.mov"⟩
      = { stW6 with skip := stW6.skip + 1 }
    ∧ FS.lookupFile (run_batch ocC6 fsC6 sC6).finalFS ⟨["out"], "x_tmp.mp4"⟩ = some 12 :=
  C6_theorem ocW6 ⟨[], "out"⟩ stW6 ⟨["in"], "a.mov"⟩ (by decide)

/-! ## Claim C10 -/

/-- C10: with the encoder binary present, run_batch creates the output
directory (with parents) before discovery, so after any outcome reachable
from there — the fatal missing-input-directory error or a completed run,
including the no-input-files failure — the output directory exists. -/
theorem C10_theorem (oc : BatchOracle) (fs : FS) (s : Settings)
    (hff : oc.ffmpegMissing = false) :
    (∀ gs msg, run_batch oc fs s = BatchOutcome.fatal gs msg →
      FS.existsPath gs s.output_dir = true)
    ∧ (∀ st code, run_batch oc fs s = BatchOutcome.done st code →
      FS.existsPath st.fs s.output_dir = true) := by
  have hdir : ∀ g : FS, g.dirs = (fs.mkdirParents s.output_dir).dirs →
      g.existsPath s.output_dir = true := by
    intro g hg
    apply existsPath_of_isDir
    show g.dirs.contains s.output_dir = true
    rw [hg]
    exact isDir_mkdirParents_self fs s.output_dir
  constructor
  · intro gs msg hr
    simp only [run_batch, hff, Bool.false_eq_true, if_false] at hr
    cases hd : discover_videos (fs.mkdirParents s.output_dir) s.input_dir s.recursive with
    | error e =>
      simp only [hd] at hr
      injection hr with h1 h2
      rw [← h1]
      exact hdir _ rfl
    | ok files =>
      simp only [hd] at hr
      by_cases hf : files = []
      · rw [if_pos hf] at hr
        simp at hr
      · rw [if_neg hf] at hr
        simp at hr
  · intro st code hr
    simp only [run_batch, hff, Bool.false_eq_true, if_false] at hr
    cases hd : discover_videos (fs.mkdirParents s.output_dir) s.input_dir s.recursive with
    | error e =>
      simp only [hd] at hr
      simp at hr
    | ok files =>
      simp only [hd] at hr
      by_cases hf : files = []
      · rw [if_pos hf] at hr
        injection hr with h1 h2
        rw [← h1]
        exact hdir _ rfl
      · rw [if_neg hf] at hr
        injection hr with h1 h2
        rw [← h1]
        exact hdir _ (by rw [foldl_batchStep_dirs])

def fsW10 : FS := ⟨[], [⟨[], "in"⟩]⟩

def sW10 : Settings := ⟨⟨[], "in"⟩, ⟨[], "out"⟩, false, false, 22, "160k", 1920, 1080, false⟩

def ocW10 : BatchOracle := ⟨false, fun _ => ⟨false, EncodeResult.ok 0, false, false⟩⟩

/-- C10 witness: a run over an empty input directory ends with the output
directory existing even though it returns the no-input-files failure. -/
theorem C10_witness :
    FS.existsPath (BatchState.mk (FS.mkdirParents fsW10 sW10.output_dir) 0 0 0 []).fs
      sW10.output_dir = true :=
  (C10_theorem ocW10 fsW10 sW10 (by decide)).2
    ⟨FS.mkdirParents fsW10 sW10.output_dir, 0, 0, 0, []⟩ 1 (by decide)

/-! ## Claim C3 -/

/-- C3: a completed batch returns 1 exactly when no input file was
discovered or at least one conversion failed, and 0 otherwise, and main
propagates that code; at the top level an interrupt exits with 130 and an
escaping exception (missing encoder binary, missing input directory)
exits with 2. -/
theorem C3_theorem (oc : BatchOracle) (fs : FS) (a : RawArgs) (s : Settings)
    (hpa : parse_args a = Except.ok s) :
    (∀ files st code,
      discover_videos (fs.mkdirParents s.output_dir) s.input_dir s.recursive
          = Except.ok files →
      run_batch oc fs s = BatchOutcome.done st code →
      ((code = 1 ↔ (files = [] ∨ st.fail ≠ 0))
        ∧ (code = 0 ∨ code = 1)
        ∧ (pymain false oc fs a).1 = code))
    ∧ (pymain true oc fs a).1 = 130
    ∧ (∀ gs msg, run_batch oc fs s = BatchOutcome.fatal gs msg →
        (pymain false oc fs a).1 = 2) := by
  refine ⟨?_, rfl, ?_⟩
  · intro files st code hd hr
    have hmain : (pymain false oc fs a).1 = code := by
      simp only [pymain, Bool.false_eq_true, if_false, hpa, hr]
    refine ⟨?_, ?_, hmain⟩
    all_goals {
      cases hff : oc.ffmpegMissing with
      | true =>
        rw [run_batch, hff] at hr
        simp at hr
      | false =>
        simp only [run_batch, hff, Bool.false_eq_true, if_false, hd] at hr
        by_cases hf : files = []
        · rw [if_pos hf] at hr
          injection hr with h1 h2
          subst h2
          simp [hf]
        · rw [if_neg hf] at hr
          injection hr with h1 h2
          subst h1
          subst h2
          by_cases hfail : (files.foldl (batchStep oc s.overwrite s.output_dir)
              ⟨fs.mkdirParents s.output_dir, 0, 0, 0, []⟩).fail = 0
          · simp [hf, hfail]
          · simp [hf, hfail]
    }
  · intro gs msg hr
    simp only [pymain, Bool.false_eq_true, if_false, hpa, hr]

def aW3 : RawArgs := ⟨⟨[], "in"⟩, ⟨[], "out"⟩, false, false, 22, "160k", 1920, 1080, false⟩

def sW3 : Settings := ⟨⟨[], "in"⟩, ⟨[], "out"⟩, false, false, 22, "160k", 1920, 1080, false⟩

def fsW3 : FS := ⟨[], [⟨[], "in"⟩]⟩

def ocW3 : BatchOracle := ⟨false, fun _ => ⟨false, EncodeResult.ok 0, false, false⟩⟩

/-- C3 witness: a run over an empty input directory completes with code 1,
main propagates it, and an interrupted run exits with 130. -/
theorem C3_witness :
    (((1 : Int) = 1 ↔ (([] : List PyPath) = [] ∨
        (BatchState.mk (FS.mkdirParents fsW3 sW3.output_dir) 0 0 0 []).fail ≠ 0))
      ∧ ((1 : Int) = 0 ∨ (1 : Int) = 1)
      ∧ (pymain false ocW3 fsW3 aW3).1 = 1)
    ∧ (pymain true ocW3 fsW3 aW3).1 = 130 := by
  have h := C3_theorem ocW3 fsW3 aW3 sW3 (by decide)
  exact ⟨h.1 [] ⟨FS.mkdirParents fsW3 sW3.output_dir, 0, 0, 0, []⟩ 1 (by decide) (by decide),
    h.2.1⟩

/-! ## Claim C4 -/

/-- C4: discovery returns exactly the regular files covered by the glob
(directly under the root, or at any depth below it when recursive) whose
lower-cased extension belongs to the supported set, in sorted order; the
result is unchanged under any permutation of the on-disk enumeration; and
a missing root directory is a not-found error. -/
theorem C4_theorem (fs fs2 : FS) (root : PyPath) (recursive : Bool) (l : List PyPath)
    (h : discover_videos fs root recursive = Except.ok l)
    (hp : fs2.files.Perm fs.files) (hd : fs2.dirs.Perm fs.dirs) :
    (∀ p, p ∈ l ↔ (FS.isFile fs p = true ∧ globMatch root recursive p = true
      ∧ SUPPORTED_EXTS.contains (strToLower p.suffix) = true))
    ∧ List.Sorted pathLe l
    ∧ discover_videos fs2 root recursive = Except.ok l
    ∧ (∀ g : FS, FS.existsPath g root = false →
      discover_videos g root recursive = Except.error "Input directory not found") := by
  by_cases hex : fs.existsPath root = true
  case neg =>
    exfalso
    unfold discover_videos at h
    rw [if_neg hex] at h
    cases h
  case pos =>
  have hl : l = List.insertionSort pathLe
      ((fs.files.map Prod.fst).filter
        (fun p => globMatch root recursive p
          && SUPPORTED_EXTS.contains (strToLower p.suffix))) := by
    unfold discover_videos at h
    rw [if_pos hex] at h
    injection h with h1
    exact h1.symm
  refine ⟨?_, ?_, ?_, ?_⟩
  · intro p
    rw [hl, (List.perm_insertionSort pathLe _).mem_iff, List.mem_filter,
      ← isFile_iff_mem]
    simp [Bool.and_eq_true, and_assoc]
  · rw [hl]
    exact List.sorted_insertionSort pathLe _
  · have hex2 : fs2.existsPath root = true := by
      have hor : fs.isFile root = true ∨ fs.isDir root = true := by
        simpa [FS.existsPath] using hex
      unfold FS.existsPath
      rcases hor with h1 | h1
      · rw [(isFile_iff_mem fs2 root).mpr (((hp.map Prod.fst).mem_iff).mpr
          ((isFile_iff_mem fs root).mp h1))]
        rfl
      · have h2 : fs2.isDir root = true := by
          unfold FS.isDir at h1 ⊢
          exact List.elem_eq_true_of_mem (hd.mem_iff.mpr (List.mem_of_elem_eq_true h1))
        rw [h2, Bool.or_true]
    unfold discover_videos
    rw [if_pos hex2, hl]
    exact congrArg Except.ok
      (List.eq_of_perm_of_sorted
        (((List.perm_insertionSort pathLe _).trans ((hp.map Prod.fst).filter _)).trans
          (List.perm_insertionSort pathLe _).symm)
        (List.sorted_insertionSort pathLe _)
        (List.sorted_insertionSort pathLe _))
  · intro g hg
    unfold discover_videos
    rw [if_neg (by simp [hg])]

def fsW4 : FS :=
  ⟨[(⟨["in"], "b.mov"⟩, 1), (⟨["in"], "a.mp4"⟩, 2), (⟨["in"], "n.txt"⟩, 3)], [⟨[], "in"⟩]⟩

def fsW4b : FS :=
  ⟨[(⟨["in"], "n.txt"⟩, 3), (⟨["in"], "a.mp4"⟩, 2), (⟨["in"], "b.mov"⟩, 1)], [⟨[], "in"⟩]⟩

def lW4 : List PyPath := [⟨["in"], "a.mp4"⟩, ⟨["in"], "b.mov"⟩]

/-- C4 witness: a directory holding b.mov, a.mp4 and the unsupported n.txt
yields the sorted pair a.mp4, b.mov, and the reversed on-disk enumeration
yields the identical result. -/
theorem C4_witness :
    List.Sorted pathLe lW4
    ∧ discover_videos fsW4b ⟨[], "in"⟩ false = Except.ok lW4 := by
  have h := C4_theorem fsW4 fsW4b ⟨[], "in"⟩ false lW4 (by decide) (by decide) (by decide)
  exact ⟨h.2.1, h.2.2.1⟩

end PPTFix
